import Mathlib

/-!
Formal model of the `apple_music_python` profile / embedding / similarity
pipeline, shallowly embedded from the repository sources:

* `src/controllers/sync_controller.py` — sync pipeline, profile text builder
  (`_generate_profile_text`), fallback embedder (`_generate_profile_embedding`);
* `src/services/vector_store.py` — collection-name sanitization, profile
  storage (`store_user_profile` / `get_vector`), cosine similarity, the
  similar-user scan (`find_similar_users`), the structured text extractor
  (`_parse_profile_text`) and the two-user comparison (`find_common_interests`).

Python floats are modelled as exact numbers: pre-normalization feature values
are rationals (`ℚ`, every arithmetic step of the code is exact on small
rationals) and anything that goes through `math.sqrt` lives in `ℝ`.
Python strings are modelled as `String` / `List Char`; `dict` objects with
insertion order are modelled as association lists kept in insertion order.
The MongoDB backing store is modelled as an insertion-ordered association
list of collections, each an insertion-ordered association list of documents
keyed by `_id` (Mongo guarantees `_id` uniqueness per collection; the model's
well-formedness predicate `wfDB` states it).
-/

namespace AppleMusic

/-! ## Character and string helpers (Python semantics) -/

/-- Python's `\s` class for the ASCII range: space, tab, newline, carriage
return, vertical tab, form feed.  (The profile texts handled by the code are
built from catalog strings; the regexes in the source are applied with these
semantics.) -/
def isPySpace (c : Char) : Bool :=
  c = ' ' || c = '\t' || c = '\n' || c = '\r' || c.toNat = 11 || c.toNat = 12

/-- Python's `str.strip()`: remove leading and trailing whitespace. -/
def pyStrip (l : List Char) : List Char :=
  ((l.dropWhile isPySpace).reverse.dropWhile isPySpace).reverse

/-- Python's `str.lower()` on a character list (ASCII case folding, which is
what all keywords in the source use). -/
def lowerList (l : List Char) : List Char :=
  l.map Char.toLower

/-- Python's `\w` class (`[a-zA-Z0-9_]` for the ASCII texts at hand). -/
def isWordChar (c : Char) : Bool :=
  c.isAlphanum || c = '_'

/-- Join a list of strings with a separator — Python's `sep.join(xs)`. -/
def joinSep (sep : String) : List String → String
  | [] => ""
  | [x] => x
  | x :: y :: r => x ++ sep ++ joinSep sep (y :: r)

/-! ## Insertion-ordered counting dictionaries

Python `dict`s preserve insertion order of first occurrence; we model the
genre/word frequency maps of the source as association lists in that order. -/

/-- `m[g] = m.get(g, 0) + 1` on an insertion-ordered association list. -/
def bump (m : List (String × Nat)) (g : String) : List (String × Nat) :=
  match m with
  | [] => [(g, 1)]
  | p :: r => if p.1 = g then (g, p.2 + 1) :: r else p :: bump r g

/-- `m.get(g, 0)` on an association list. -/
def lookupD (m : List (String × Nat)) (g : String) : Nat :=
  match m with
  | [] => 0
  | p :: r => if p.1 = g then p.2 else lookupD r g

/-! ## Stable descending sort

`sorted(xs, key=k, reverse=True)` in Python is the stable sort by descending
key: among equal keys the original order is preserved.  Insertion sort with
the comparator "insert `a` in front of `b` iff `k b ≤ k a`" computes exactly
that permutation when the earlier elements are inserted into the sorted
later elements. -/

/-- Stable descending insert for `sorted(·, key := k, reverse := True)`. -/
def insGe {α : Type _} (k : α → Nat) (a : α) : List α → List α
  | [] => [a]
  | b :: l => if k b ≤ k a then a :: b :: l else b :: insGe k a l

/-- Stable descending insertion sort by key `k`. -/
def insortGe {α : Type _} (k : α → Nat) : List α → List α
  | [] => []
  | a :: l => insGe k a (insortGe k l)

/-- Lexicographic insert: strictly larger key first, ties by the strictly
smaller auxiliary index `ι` first.  Used to state the specification's
"descending frequency, ties broken by first appearance" ordering. -/
def insLex {α : Type _} (k ι : α → Nat) (a : α) : List α → List α
  | [] => [a]
  | b :: l =>
    if k b < k a ∨ (k a = k b ∧ ι a < ι b) then a :: b :: l else b :: insLex k ι a l

/-- Insertion sort for the lexicographic `(descending key, ascending index)`
order. -/
def insortLex {α : Type _} (k ι : α → Nat) : List α → List α
  | [] => []
  | a :: l => insLex k ι a (insortLex k ι l)

/-! ## Track records and the profile text builder

`SyncController._generate_profile_text` (sync_controller.py:77-100).  A
catalog item is read through `item.get("attributes", {})`; a missing
`attributes` object behaves as a record with every field absent, so we model
a track directly by its attribute fields. -/

/-- One catalog track record: `attributes.name`, `attributes.artistName`,
`attributes.genreNames` (absent fields are `none` / the empty list). -/
structure Track where
  name : Option String
  artistName : Option String
  genreNames : List String
deriving Repr, DecidableEq

/-- `genre_names[0] if genre_names else "Unknown"`. -/
def firstGenre (tr : Track) : String :=
  match tr.genreNames with
  | [] => "Unknown"
  | g :: _ => g

/-- One loop iteration of `_generate_profile_text`: append the song line to
the running text and bump the genre counter when the genre is truthy and not
`"Unknown"` (`if genre and genre != "Unknown"`). -/
def profileStep (st : String × List (String × Nat)) (item : Track) :
    String × List (String × Nat) :=
  let genre := firstGenre item
  let text := st.1 ++ "Song: " ++ item.name.getD "Unknown" ++ ", Artist: " ++
    item.artistName.getD "Unknown" ++ ", Genre: " ++ genre ++ ". "
  let gs := if genre != "" && genre != "Unknown" then bump st.2 genre else st.2
  (text, gs)

/-- `SyncController._generate_profile_text`: returns the profile text and the
top-genre list.  `sorted(genres.keys(), key=lambda x: genres[x],
reverse=True)[:3]` is the stable descending sort of the dict keys (which are
in first-occurrence order) by their counts, truncated to three. -/
def generateProfileText (catalog : List Track) : String × List String :=
  let st := catalog.foldl profileStep ("User Listening Profile: ", [])
  let top := (insortGe (fun g => lookupD st.2 g) (st.2.map Prod.fst)).take 3
  (st.1 ++ "Top Genres: " ++ joinSep ", " top ++ ".", top)

/-! ## Specification-side formulations for claim C1

These definitions follow the words of the claim ("the top min(3, number of
distinct non-Unknown genres) genre names ordered by descending frequency,
counting only genres not equal to Unknown, one count per track, using the
first entry of the track's genreNames, ties broken by the order genres first
appear"), to be compared with the source-derived `generateProfileText`. -/

/-- Genres the claim counts: first genre of each track, excluding
`"Unknown"` only (the claim's literal reading). -/
def qualGenresStated (tracks : List Track) : List String :=
  (tracks.map firstGenre).filter (fun g => g != "Unknown")

/-- Genres the code actually counts: additionally excluding the empty string
(Python truthiness `if genre and genre != "Unknown"`). -/
def qualGenresAmended (tracks : List Track) : List String :=
  (tracks.map firstGenre).filter (fun g => g != "" && g != "Unknown")

/-- De-duplicate keeping the first occurrence of each element. -/
def firstSeen (l : List String) : List String :=
  l.foldl (fun acc g => if g ∈ acc then acc else acc ++ [g]) []

/-- The claim's top-genre list, literal reading: distinct non-Unknown genres
ordered by descending frequency with ties in first-appearance order, top 3. -/
def topGenresStated (tracks : List Track) : List String :=
  let q := qualGenresStated tracks
  let d := firstSeen q
  (insortLex (fun g => q.count g) (fun g => d.indexOf g) d).take 3

/-- The amended top-genre list: as the claim, but counting only genres that
are non-empty in addition to being distinct from `"Unknown"`. -/
def topGenresAmended (tracks : List Track) : List String :=
  let q := qualGenresAmended tracks
  let d := firstSeen q
  (insortLex (fun g => q.count g) (fun g => d.indexOf g) d).take 3

/-! ## Lemmas about the counting fold -/

/-- Bumping a key leaves the key sequence unchanged when the key is present
and appends it otherwise (dict insertion order). -/
theorem map_fst_bump : ∀ (m : List (String × Nat)) (g : String),
    (bump m g).map Prod.fst =
      if g ∈ m.map Prod.fst then m.map Prod.fst else m.map Prod.fst ++ [g]
  | [], g => by simp [bump]
  | p :: r, g => by
    by_cases h : p.1 = g
    · simp [bump, h]
    · have ih := map_fst_bump r g
      by_cases hm : g ∈ r.map Prod.fst
      · simp [bump, h, hm, ih, Ne.symm h]
      · simp [bump, h, hm, ih, Ne.symm h]

/-- Bumping `g` increments the stored count of `g` and no other count. -/
theorem lookupD_bump : ∀ (m : List (String × Nat)) (g g' : String),
    lookupD (bump m g) g' = lookupD m g' + (if g' = g then 1 else 0)
  | [], g, g' => by
    by_cases h : g = g'
    · simp [bump, lookupD, h]
    · have h' : ¬ g' = g := fun e => h e.symm
      simp [bump, lookupD, h, h']
  | p :: r, g, g' => by
    by_cases h : p.1 = g
    · by_cases h' : g' = g
      · subst h'
        simp [bump, lookupD, h]
      · have h1 : ¬ g = g' := fun e => h' e.symm
        have h2 : ¬ p.1 = g' := fun e => h1 (h.symm.trans e)
        simp [bump, lookupD, h, h', h1, h2]
    · have ih := lookupD_bump r g g'
      by_cases hp : p.1 = g'
      · have : ¬ g' = g := fun e => h (hp.trans e)
        simp [bump, lookupD, h, hp, this]
      · simp [bump, lookupD, h, hp, ih]

/-- One step of `firstSeen`. -/
def seenStep (acc : List String) (g : String) : List String :=
  if g ∈ acc then acc else acc ++ [g]

/-- Key sequence of the counting fold: fold of `seenStep` over the counted
genres, i.e. first-occurrence order. -/
theorem map_fst_foldl_bump : ∀ (gs : List String) (m : List (String × Nat)),
    (gs.foldl bump m).map Prod.fst = gs.foldl seenStep (m.map Prod.fst)
  | [], _ => rfl
  | g :: gs, m => by
    rw [List.foldl_cons, List.foldl_cons, map_fst_foldl_bump, map_fst_bump]
    rfl

/-- Counts of the counting fold are occurrence counts of the counted list. -/
theorem lookupD_foldl_bump : ∀ (gs : List String) (m : List (String × Nat)) (g : String),
    lookupD (gs.foldl bump m) g = lookupD m g + gs.count g
  | [], m, g => by simp
  | x :: gs, m, g => by
    rw [List.foldl_cons, lookupD_foldl_bump, lookupD_bump]
    by_cases h : g = x
    · simp [h, List.count_cons, beq_iff_eq]
      omega
    · simp [h, List.count_cons, beq_iff_eq]

/-- `firstSeen` is the `seenStep` fold started from the empty accumulator. -/
theorem firstSeen_eq_foldl (l : List String) :
    firstSeen l = l.foldl seenStep [] := rfl

/-- The `seenStep` fold preserves freedom from duplicates. -/
theorem nodup_foldl_seen : ∀ (gs : List String) (acc : List String),
    acc.Nodup → (gs.foldl seenStep acc).Nodup
  | [], _, h => h
  | g :: gs, acc, h => by
    rw [List.foldl_cons]
    refine nodup_foldl_seen gs _ ?_
    unfold seenStep
    by_cases hm : g ∈ acc
    · simpa [hm] using h
    · simp [hm, List.nodup_append, h, List.disjoint_singleton]

/-- The second component of the profile-text fold is the genre-count fold
over the qualifying genres (non-empty, not `"Unknown"`). -/
theorem foldl_profileStep_snd : ∀ (l : List Track) (t : String) (m : List (String × Nat)),
    (l.foldl profileStep (t, m)).2 = (qualGenresAmended l).foldl bump m
  | [], _, _ => rfl
  | tr :: l, t, m => by
    rw [List.foldl_cons]
    unfold qualGenresAmended at *
    rw [List.map_cons, List.filter_cons]
    by_cases hc : (firstGenre tr != "" && firstGenre tr != "Unknown") = true
    · rw [if_pos hc, List.foldl_cons]
      rw [show l.foldl profileStep (profileStep (t, m) tr)
            = l.foldl profileStep (((profileStep (t, m) tr).1, bump m (firstGenre tr))) from by
          simp [profileStep, hc]]
      exact foldl_profileStep_snd l _ _
    · rw [if_neg hc]
      rw [show l.foldl profileStep (profileStep (t, m) tr)
            = l.foldl profileStep (((profileStep (t, m) tr).1, m)) from by
          simp [profileStep, hc]]
      exact foldl_profileStep_snd l _ _

/-! ## Stable descending sort equals the lexicographic sort -/

/-- Members of a stable-descending insert come from the inserted element or
the list. -/
theorem mem_insGe {α : Type _} (k : α → Nat) (a c : α) :
    ∀ (s : List α), c ∈ insGe k a s → c = a ∨ c ∈ s
  | [], h => by simpa [insGe] using h
  | b :: l, h => by
    unfold insGe at h
    by_cases hk : k b ≤ k a
    · rw [if_pos hk] at h
      simpa using h
    · rw [if_neg hk] at h
      rcases List.mem_cons.mp h with h | h
      · exact Or.inr (h ▸ List.mem_cons_self b l)
      · rcases mem_insGe k a c l h with h | h
        · exact Or.inl h
        · exact Or.inr (List.mem_cons_of_mem b h)

/-- Members of the stable-descending sort come from the input list. -/
theorem mem_insortGe {α : Type _} (k : α → Nat) (c : α) :
    ∀ (l : List α), c ∈ insortGe k l → c ∈ l
  | a :: l, h => by
    rcases mem_insGe k a c _ h with h | h
    · exact h ▸ List.mem_cons_self a l
    · exact List.mem_cons_of_mem a (mem_insortGe k c l h)

/-- When the inserted element has the strictly smallest auxiliary index, the
stable-descending insert coincides with the lexicographic insert. -/
theorem insGe_eq_insLex {α : Type _} (k ι : α → Nat) (a : α) :
    ∀ (s : List α), (∀ b ∈ s, ι a < ι b) → insGe k a s = insLex k ι a s
  | [], _ => rfl
  | b :: l, h => by
    have hb : ι a < ι b := h b (List.mem_cons_self b l)
    unfold insGe insLex
    by_cases hk : k b ≤ k a
    · rw [if_pos hk, if_pos (by omega : k b < k a ∨ (k a = k b ∧ ι a < ι b))]
    · rw [if_neg hk, if_neg (by omega : ¬(k b < k a ∨ (k a = k b ∧ ι a < ι b)))]
      rw [insGe_eq_insLex k ι a l (fun c hc => h c (List.mem_cons_of_mem b hc))]

/-- On a list whose auxiliary indices strictly increase along the list (the
stability tie-break), the stable descending sort is the lexicographic sort by
`(descending key, ascending index)`. -/
theorem insortGe_eq_insortLex {α : Type _} (k ι : α → Nat) :
    ∀ (l : List α), l.Pairwise (fun a b => ι a < ι b) →
      insortGe k l = insortLex k ι l
  | [], _ => rfl
  | a :: l, h => by
    have h1 : ∀ b ∈ l, ι a < ι b := (List.pairwise_cons.mp h).1
    have h2 : l.Pairwise (fun a b => ι a < ι b) := (List.pairwise_cons.mp h).2
    unfold insortGe insortLex
    rw [← insortGe_eq_insortLex k ι l h2]
    exact insGe_eq_insLex k ι a _ (fun b hb => h1 b (mem_insortGe k b l hb))

/-- A duplicate-free list is strictly increasing along its own `indexOf`. -/
theorem pairwise_indexOf_of_nodup : ∀ (l : List String), l.Nodup →
    l.Pairwise (fun a b => l.indexOf a < l.indexOf b)
  | [], _ => List.Pairwise.nil
  | a :: t, h => by
    have ha : a ∉ t := (List.nodup_cons.mp h).1
    have ht : t.Nodup := (List.nodup_cons.mp h).2
    refine List.pairwise_cons.mpr ⟨?_, ?_⟩
    · intro b hb
      have hab : a ≠ b := fun e => ha (e ▸ hb)
      rw [List.indexOf_cons_self, List.indexOf_cons_ne t hab]
      exact Nat.succ_pos _
    · refine (pairwise_indexOf_of_nodup t ht).imp_of_mem ?_
      intro x y hx hy hxy
      have hax : a ≠ x := fun e => ha (e ▸ hx)
      have hay : a ≠ y := fun e => ha (e ▸ hy)
      rw [List.indexOf_cons_ne t hax, List.indexOf_cons_ne t hay]
      omega

/-- Length is preserved by the lexicographic insert. -/
theorem length_insLex {α : Type _} (k ι : α → Nat) (a : α) :
    ∀ (s : List α), (insLex k ι a s).length = s.length + 1
  | [] => rfl
  | b :: l => by
    unfold insLex
    by_cases hk : k b < k a ∨ (k a = k b ∧ ι a < ι b)
    · rw [if_pos hk]; rfl
    · rw [if_neg hk]
      simp [length_insLex k ι a l]

/-- Length is preserved by the lexicographic sort. -/
theorem length_insortLex {α : Type _} (k ι : α → Nat) :
    ∀ (l : List α), (insortLex k ι l).length = l.length
  | [] => rfl
  | a :: l => by
    unfold insortLex
    rw [length_insLex, length_insortLex k ι l]
    rfl

/-- Main C1 equivalence: the code's top-genre list equals the amended
specification formulation (descending frequency over non-empty non-Unknown
first genres, ties in first-appearance order, truncated to three). -/
theorem topGenres_code_eq_amended (tracks : List Track) :
    (generateProfileText tracks).2 = topGenresAmended tracks := by
  show (insortGe
      (fun g => lookupD (tracks.foldl profileStep ("User Listening Profile: ", [])).2 g)
      ((tracks.foldl profileStep ("User Listening Profile: ", [])).2.map Prod.fst)).take 3
    = topGenresAmended tracks
  rw [foldl_profileStep_snd tracks _ []]
  have hkeys : ((qualGenresAmended tracks).foldl bump []).map Prod.fst
      = firstSeen (qualGenresAmended tracks) := by
    rw [map_fst_foldl_bump, firstSeen_eq_foldl]
    rfl
  have hkey : (fun g => lookupD ((qualGenresAmended tracks).foldl bump []) g)
      = (fun g => (qualGenresAmended tracks).count g) := by
    funext g
    rw [lookupD_foldl_bump]
    simp [lookupD]
  rw [hkeys, hkey]
  have hnd : (firstSeen (qualGenresAmended tracks)).Nodup := by
    rw [firstSeen_eq_foldl]
    exact nodup_foldl_seen _ [] List.nodup_nil
  rw [insortGe_eq_insortLex _ _ _ (pairwise_indexOf_of_nodup _ hnd)]
  rfl

/-- A track carrying exactly one genre name (used for the claim's concrete
example input). -/
def genreTrack (g : String) : Track := ⟨none, none, [g]⟩

/-- Claim C1, counterexample: the claim as stated counts every first genre
different from `"Unknown"`, including the empty string, so on the single
track whose `genreNames` is `[""]` it demands `topGenres = [""]`; the code's
truthiness guard (`if genre and genre != "Unknown"`) skips the empty genre
and returns `[]`. -/
theorem claim1_counterexample :
    (generateProfileText [genreTrack ""]).2 ≠ topGenresStated [genreTrack ""] := by
  decide

/-- Claim C1 (amended): for every track list, the `topGenres` returned by
the profile builder are the top `min(3, number of distinct non-empty
non-Unknown genres)` genre names ordered by descending frequency, counting
only genres that are non-empty and not `"Unknown"` (one count per track,
using the first entry of the track's `genreNames`), ties broken by the
order genres first appear; on the claim's example
`[Rock, Rock, Jazz, Pop, Pop, Pop]` the result is `["Pop", "Rock", "Jazz"]`. -/
theorem claim1_amended (tracks : List Track) :
    (generateProfileText tracks).2 = topGenresAmended tracks ∧
    (generateProfileText tracks).2.length
      = min 3 (firstSeen (qualGenresAmended tracks)).length ∧
    (generateProfileText [genreTrack "Rock", genreTrack "Rock", genreTrack "Jazz",
        genreTrack "Pop", genreTrack "Pop", genreTrack "Pop"]).2
      = ["Pop", "Rock", "Jazz"] := by
  refine ⟨topGenres_code_eq_amended tracks, ?_, by decide⟩
  rw [topGenres_code_eq_amended tracks]
  unfold topGenresAmended
  rw [List.length_take, length_insortLex]

/-! ## Claim C7: the profile text formula -/

/-- The claim's per-track clause:
`"Song: {name|Unknown}, Artist: {artist|Unknown}, Genre: {genre}. "`. -/
def trackClause (tr : Track) : String :=
  "Song: " ++ tr.name.getD "Unknown" ++ ", Artist: " ++ tr.artistName.getD "Unknown" ++
    ", Genre: " ++ firstGenre tr ++ ". "

/-- Concatenation of the per-track clauses, in track order. -/
def clausesText : List Track → String
  | [] => ""
  | tr :: l => trackClause tr ++ clausesText l

/-- The text accumulated by the profile fold is the starting text followed by
the per-track clauses. -/
theorem foldl_profileStep_fst : ∀ (l : List Track) (t : String) (m : List (String × Nat)),
    (l.foldl profileStep (t, m)).1 = t ++ clausesText l
  | [], t, _ => by simp [clausesText]
  | tr :: l, t, m => by
    rw [List.foldl_cons, foldl_profileStep_fst l _ _]
    show (profileStep (t, m) tr).1 ++ clausesText l = t ++ clausesText (tr :: l)
    simp only [profileStep, trackClause, clausesText, String.append_assoc]

/-- Claim C7: for every track list, the built profile text is exactly the
preamble `"User Listening Profile: "`, then for each track in order
`"Song: {name|Unknown}, Artist: {artist|Unknown}, Genre: {genre}. "` (genre
being the first `genreNames` entry or `"Unknown"`), then `"Top Genres: "`,
the comma-space join of the top genres, and a final period; the empty track
list produces exactly the preamble plus `"Top Genres: ."` and is not an
error. -/
theorem claim7_profile_text (tracks : List Track) :
    (generateProfileText tracks).1
      = "User Listening Profile: " ++ clausesText tracks ++ "Top Genres: "
        ++ joinSep ", " (generateProfileText tracks).2 ++ "." ∧
    generateProfileText [] = ("User Listening Profile: Top Genres: .", []) := by
  constructor
  · show (tracks.foldl profileStep ("User Listening Profile: ", [])).1
        ++ "Top Genres: " ++ joinSep ", " (generateProfileText tracks).2 ++ "." = _
    rw [foldl_profileStep_fst]
  · rfl

/-! ## The fallback embedder (`_generate_profile_embedding`, C5 and C6)

All arithmetic on the success path is modelled exactly over `ℚ` (the Python
float literals `0.1`, `/ 256`, `/ 50`, `/ 1000` are idealized as exact
rationals); the final L2 normalization goes through `math.sqrt` and is
modelled over `ℝ`. -/

/-- `[ord(c) for c in profile_text]`. -/
def charCodes (t : String) : List Nat := t.data.map Char.toNat

/-- Number of non-overlapping matches of the case-sensitive regex
`Genre: ([^.]+)`: the literal `"Genre: "` followed by at least one
non-period character; the match extends to the next period and scanning
resumes after the capture, otherwise the scan advances one character. -/
def countGenreRe : Nat → List Char → Nat
  | 0, _ => 0
  | _ + 1, [] => 0
  | fuel + 1, s =>
    if ("Genre: ".data).isPrefixOf s then
      let u := s.drop 7
      let cap := u.takeWhile (fun c => c != '.')
      if cap.isEmpty then countGenreRe fuel (s.drop 1)
      else 1 + countGenreRe fuel (u.drop cap.length)
    else countGenreRe fuel (s.drop 1)

/-- Number of non-overlapping occurrences of the literal `"Song:"`
(`re.findall(r'Song:', ...)`). -/
def countSongLit : Nat → List Char → Nat
  | 0, _ => 0
  | _ + 1, [] => 0
  | fuel + 1, s =>
    if ("Song:".data).isPrefixOf s then 1 + countSongLit fuel (s.drop 5)
    else countSongLit fuel (s.drop 1)

/-- Whether `re.search(r'Top Genres: (.+)', ...)` finds a match: some
occurrence of the literal `"Top Genres: "` followed by at least one
character other than a newline (`.` does not match `\n`). -/
def hasTopGenres : Nat → List Char → Bool
  | 0, _ => false
  | _ + 1, [] => false
  | fuel + 1, s =>
    if ("Top Genres: ".data).isPrefixOf s then
      match s.drop 12 with
      | [] => hasTopGenres fuel (s.drop 1)
      | c :: _ => if c = '\n' then hasTopGenres fuel (s.drop 1) else true
    else hasTopGenres fuel (s.drop 1)

/-- `re.findall(r'\b\w+\b', ·)`: the maximal runs of word characters. -/
def tokenize : Nat → List Char → List (List Char)
  | 0, _ => []
  | _ + 1, [] => []
  | fuel + 1, c :: r =>
    if isWordChar c then
      ((c :: r).takeWhile isWordChar) :: tokenize fuel ((c :: r).dropWhile isWordChar)
    else tokenize fuel r

/-- All word tokens of the lower-cased text, in order. -/
def allWords (t : String) : List (List Char) :=
  tokenize (t.data.length + 1) (lowerList t.data)

/-- The insertion-ordered frequency dict over words longer than three
characters (`if len(word) > 3: word_freq[word] = word_freq.get(word, 0) + 1`). -/
def wordFreq (t : String) : List (String × Nat) :=
  ((allWords t).filter (fun w => w.length > 3)).foldl (fun m w => bump m (String.mk w)) []

/-- `sorted(word_freq.items(), key=lambda x: x[1], reverse=True)[:10]`. -/
def topWords (t : String) : List (String × Nat) :=
  (insortGe (fun p => p.2) (wordFreq t)).take 10

/-- The first `4 + len(top_words)` feature slots, before padding.  (The
division by `len(words)` is never a division by zero on the paths the code
reaches: a qualifying word exists only when the token list is non-empty.) -/
def baseFeatures (t : String) : List ℚ :=
  [min ((t.data.length : ℚ) / 1000) 1,
   (countGenreRe (t.data.length + 1) t.data : ℚ) / 50,
   (countSongLit (t.data.length + 1) t.data : ℚ) / 50,
   if hasTopGenres (t.data.length + 1) t.data then 1 else 0]
  ++ (topWords t).map (fun p => ((p.2 : ℚ) / ((allWords t).length : ℚ)) * 10)

/-- One padding value: `(char_codes[(len(features) - 1) % len(char_codes)]
/ 256) * 0.1`, or the constant `0.1` when the text is empty.  (The code
computes the index with Python integers; `len` is at least 4 whenever the
loop runs, so natural subtraction agrees with Python's.) -/
def padVal (cc : List Nat) (len : Nat) : ℚ :=
  if cc.isEmpty then 1/10 else ((cc.getD ((len - 1) % cc.length) 0 : ℚ) / 256) * (1/10)

/-- `n` iterations of `features.append(value)` from the padding loop. -/
def padCount (cc : List Nat) : List ℚ → Nat → List ℚ
  | fs, 0 => fs
  | fs, n + 1 => padCount cc (fs ++ [padVal cc fs.length]) n

/-- The full 128-entry pre-normalization feature vector: pad to 128 entries
and truncate (`features[:128]`). -/
def featuresQ (t : String) : List ℚ :=
  (padCount (charCodes t) (baseFeatures t) (128 - (baseFeatures t).length)).take 128

/-- Sum of squares over `ℚ`. -/
def sumSqQ : List ℚ → ℚ
  | [] => 0
  | x :: l => x * x + sumSqQ l

/-- Sum of squares over `ℝ` (`sum(val * val for val in embedding)`). -/
def sumSqR : List ℝ → ℝ
  | [] => 0
  | x :: l => x * x + sumSqR l

/-- Embedding of the exact rational feature values into `ℝ`. -/
def ratsToReals (l : List ℚ) : List ℝ :=
  l.map (fun q : ℚ => (q : ℝ))

/-- The fallback embedder's returned vector: the feature vector divided by
its Euclidean norm when that norm is positive (`if magnitude > 0`),
otherwise the unnormalized vector. -/
noncomputable def embedF (t : String) : List ℝ :=
  let emb : List ℝ := ratsToReals (featuresQ t)
  let magnitude := Real.sqrt (sumSqR emb)
  if 0 < magnitude then emb.map (fun v => v / magnitude) else emb

/-! ## Lemmas about the padding loop -/

/-- Each padding iteration adds one slot. -/
theorem padCount_length (cc : List Nat) : ∀ (n : Nat) (fs : List ℚ),
    (padCount cc fs n).length = fs.length + n
  | 0, fs => rfl
  | n + 1, fs => by
    show (padCount cc (fs ++ [padVal cc fs.length]) n).length = fs.length + (n + 1)
    rw [padCount_length cc n]
    simp
    omega

/-- Slots of the padded vector: the original slots below the original
length, the value `padVal cc i` at every later slot `i`. -/
theorem padCount_getElem? (cc : List Nat) : ∀ (n : Nat) (fs : List ℚ) (i : Nat),
    i < fs.length + n →
    (padCount cc fs n)[i]? = if i < fs.length then fs[i]? else some (padVal cc i)
  | 0, fs, i, h => by
    rw [if_pos (by omega)]
    rfl
  | n + 1, fs, i, h => by
    show (padCount cc (fs ++ [padVal cc fs.length]) n)[i]? = _
    rw [padCount_getElem? cc n _ i (by simp; omega)]
    rcases Nat.lt_trichotomy i fs.length with hi | hi | hi
    · rw [if_pos (by simp; omega), if_pos hi, List.getElem?_append_left hi]
    · subst hi
      rw [if_pos (by simp), if_neg (by omega), List.getElem?_concat_length]
    · rw [if_neg (by simp; omega), if_neg (by omega)]

/-- The number of pre-padding slots: four scalar features plus one slot per
retained top word. -/
theorem baseFeatures_length (t : String) :
    (baseFeatures t).length = 4 + (topWords t).length := by
  simp [baseFeatures]
  omega

/-- Length is preserved by the stable-descending insert. -/
theorem length_insGe {α : Type _} (k : α → Nat) (a : α) :
    ∀ (s : List α), (insGe k a s).length = s.length + 1
  | [] => rfl
  | b :: l => by
    unfold insGe
    by_cases hk : k b ≤ k a
    · rw [if_pos hk]; rfl
    · rw [if_neg hk]
      simp [length_insGe k a l]

/-- Length is preserved by the stable-descending sort. -/
theorem length_insortGe {α : Type _} (k : α → Nat) :
    ∀ (l : List α), (insortGe k l).length = l.length
  | [] => rfl
  | a :: l => by
    unfold insortGe
    rw [length_insGe, length_insortGe k l]
    rfl

/-- Number of distinct words of length greater than three in the lower-cased
text (the keys of the frequency dict). -/
def distinctWordCount (t : String) : Nat := (wordFreq t).length

/-- The retained top-word count is `min 10` of the distinct-word count. -/
theorem topWords_length (t : String) :
    (topWords t).length = min 10 (distinctWordCount t) := by
  unfold topWords distinctWordCount
  rw [List.length_take, length_insortGe]

/-- The pre-normalization feature vector always has exactly 128 slots. -/
theorem featuresQ_length (t : String) : (featuresQ t).length = 128 := by
  have hb : (baseFeatures t).length ≤ 14 := by
    rw [baseFeatures_length, topWords_length]
    omega
  unfold featuresQ
  rw [List.length_take, padCount_length]
  omega

/-- Every slot at or above the base length (and below 128) holds the padding
value for its index. -/
theorem featuresQ_getElem?_pad (t : String) (i : Nat)
    (h1 : (baseFeatures t).length ≤ i) (h2 : i < 128) :
    (featuresQ t)[i]? = some (padVal (charCodes t) i) := by
  have hb : (baseFeatures t).length ≤ 14 := by
    rw [baseFeatures_length, topWords_length]
    omega
  unfold featuresQ
  rw [List.getElem?_take_of_lt h2, padCount_getElem? _ _ _ i (by omega), if_neg (by omega)]

/-- Every slot below the base length holds the corresponding base feature. -/
theorem featuresQ_getElem?_base (t : String) (i : Nat)
    (h1 : i < (baseFeatures t).length) :
    (featuresQ t)[i]? = (baseFeatures t)[i]? := by
  have hb : (baseFeatures t).length ≤ 14 := by
    rw [baseFeatures_length, topWords_length]
    omega
  unfold featuresQ
  rw [List.getElem?_take_of_lt (by omega), padCount_getElem? _ _ _ i (by omega), if_pos h1]

/-- Claim C6, counterexample: the claim says padding slot `i` (0-based)
holds `charCodes[i mod len(charCodes)] / 256 * 0.1`.  For the text `"ab"`
the padding starts at slot 4; the claim demands
`charCodes[4 mod 2] = ord 'a' = 97` there, but the code computes the index
from the length of the features list *before* appending
(`idx = (len(features) - 1) % len(char_codes)`), so slot 4 actually holds
`charCodes[3 mod 2] = ord 'b' = 98` scaled. -/
theorem claim6_counterexample :
    (featuresQ "ab")[4]? ≠
      some (((charCodes "ab").getD (4 % (charCodes "ab").length) 0 : ℚ) / 256 * (1 / 10)) := by
  have h4 := featuresQ_getElem?_pad "ab" 4 (by decide) (by decide)
  rw [h4]
  have hcc : charCodes "ab" = [97, 98] := by decide
  simp only [hcc, padVal, List.getD, List.isEmpty_cons, List.length_cons, List.length_nil]
  norm_num

/-- Claim C6 (amended): for every non-empty input text, each padding slot at
0-based index `i` (continuing from slot `4 + min(10, distinct qualifying
words)` up to slot 127) holds
`charCodes[(i - 1) mod len(charCodes)] / 256 * 0.1` (the pad index is
computed from the pre-append length), and for empty input text every padding
slot holds the constant `0.1` (values stated pre-normalization). -/
theorem claim6_amended (t : String) (i : Nat)
    (h1 : 4 + min 10 (distinctWordCount t) ≤ i) (h2 : i < 128) :
    (t ≠ "" →
      (featuresQ t)[i]? =
        some (((charCodes t).getD ((i - 1) % (charCodes t).length) 0 : ℚ) / 256 * (1 / 10))) ∧
    (t = "" → (featuresQ t)[i]? = some (1 / 10)) := by
  have hlen : (baseFeatures t).length = 4 + min 10 (distinctWordCount t) := by
    rw [baseFeatures_length, topWords_length]
  have hp := featuresQ_getElem?_pad t i (by omega) h2
  constructor
  · intro ht
    have hd : t.data ≠ [] := fun e => ht (String.ext (e.trans rfl))
    have hc : ¬ (charCodes t).isEmpty = true := by
      simp [List.isEmpty_iff, charCodes, List.map_eq_nil_iff, hd]
    rw [hp]
    unfold padVal
    rw [if_neg hc]
  · intro ht
    subst ht
    rw [hp]
    rfl

/-- Witness for C6 at the concrete text `"ab"` and slot `4`. -/
theorem claim6_amended_witness :
    (featuresQ "ab")[4]? =
      some (((charCodes "ab").getD ((4 - 1) % (charCodes "ab").length) 0 : ℚ) / 256 * (1 / 10)) :=
  (claim6_amended "ab" 4 (by decide) (by decide)).1 (by decide)

/-! ## Claim C5: shape and normalization of the fallback embedding -/

/-- A sum of squares is non-negative. -/
theorem sumSqR_nonneg : ∀ (l : List ℝ), 0 ≤ sumSqR l
  | [] => le_refl 0
  | x :: l => add_nonneg (mul_self_nonneg x) (sumSqR_nonneg l)

/-- A sum of squares with one non-zero entry is positive. -/
theorem sumSqR_pos_of_mem : ∀ (l : List ℝ) (x : ℝ), x ∈ l → x ≠ 0 → 0 < sumSqR l
  | y :: l, x, hm, hx => by
    rcases List.mem_cons.mp hm with h | h
    · subst h
      exact add_pos_of_pos_of_nonneg (mul_self_pos.mpr hx) (sumSqR_nonneg l)
    · exact add_pos_of_nonneg_of_pos (mul_self_nonneg y) (sumSqR_pos_of_mem l x h hx)

/-- Dividing every entry by `m` divides the sum of squares by `m * m`. -/
theorem sumSqR_map_div (m : ℝ) : ∀ (l : List ℝ),
    sumSqR (l.map (fun v => v / m)) = sumSqR l / (m * m)
  | [] => by simp [sumSqR]
  | x :: l => by
    show x / m * (x / m) + sumSqR (l.map fun v => v / m) = (x * x + sumSqR l) / (m * m)
    rw [sumSqR_map_div m l, div_mul_div_comm, div_add_div_same]

/-- An element found by `getElem?` is a member. -/
theorem mem_of_getElem?_some {α : Type _} {l : List α} {x : α} {i : Nat}
    (h : l[i]? = some x) : x ∈ l := by
  rcases List.getElem?_eq_some_iff.mp h with ⟨hi, he⟩
  exact he ▸ List.getElem_mem hi

/-- The pre-normalization feature vector always has a non-zero entry: the
length feature for non-empty text, a `0.1` padding slot for empty text.
(The Euclidean norm is therefore never zero and the embedder always
normalizes.) -/
theorem featuresQ_has_nonzero (t : String) : ∃ x ∈ featuresQ t, x ≠ 0 := by
  by_cases ht : t = ""
  · subst ht
    refine ⟨1 / 10, mem_of_getElem?_some (i := 4) ?_, by norm_num⟩
    rw [featuresQ_getElem?_pad "" 4 (by decide) (by decide)]
    rfl
  · have hd : t.data ≠ [] := fun e => ht (String.ext (e.trans rfl))
    have hpos : 0 < min ((t.data.length : ℚ) / 1000) 1 := by
      refine lt_min ?_ one_pos
      have : 0 < t.data.length := List.length_pos.mpr hd
      positivity
    refine ⟨min ((t.data.length : ℚ) / 1000) 1, mem_of_getElem?_some (i := 0) ?_, ne_of_gt hpos⟩
    rw [featuresQ_getElem?_base t 0 (by rw [baseFeatures_length]; omega)]
    rfl

/-- Claim C5: on its success path the fallback embedder is a pure function
of its input (in this functional model two calls on the same string are
definitionally the same term), returns exactly 128 entries, and is
L2-normalized to unit Euclidean norm — the pre-normalization norm is in
fact never zero (`featuresQ_has_nonzero`), so the zero-norm escape hatch
(returning the vector unnormalized) never fires and the sum of squares of
the result is always exactly 1. -/
theorem claim5_embedder (t : String) :
    (embedF t).length = 128 ∧ sumSqR (embedF t) = 1 := by
  obtain ⟨x, hx, hx0⟩ := featuresQ_has_nonzero t
  have hxm : ((x : ℚ) : ℝ) ∈ ratsToReals (featuresQ t) :=
    List.mem_map_of_mem (fun q : ℚ => (q : ℝ)) hx
  have hS : 0 < sumSqR (ratsToReals (featuresQ t)) :=
    sumSqR_pos_of_mem _ ((x : ℚ) : ℝ) hxm (by exact_mod_cast hx0)
  have hm : 0 < Real.sqrt (sumSqR (ratsToReals (featuresQ t))) :=
    Real.sqrt_pos.mpr hS
  have he : embedF t = (ratsToReals (featuresQ t)).map
      (fun v => v / Real.sqrt (sumSqR (ratsToReals (featuresQ t)))) := by
    show (if 0 < Real.sqrt (sumSqR (ratsToReals (featuresQ t))) then
        (ratsToReals (featuresQ t)).map
          (fun v => v / Real.sqrt (sumSqR (ratsToReals (featuresQ t))))
      else ratsToReals (featuresQ t)) = _
    rw [if_pos hm]
  constructor
  · rw [he, List.length_map, ratsToReals, List.length_map, featuresQ_length]
  · rw [he, sumSqR_map_div, Real.mul_self_sqrt (le_of_lt hS), div_self (ne_of_gt hS)]

/-! ## Cosine similarity (`VectorStoreService.cosine_similarity`, C2) -/

/-- `sum(a * b for a, b in zip(vec_a, vec_b))`. -/
def dotR (a b : List ℝ) : ℝ := (List.zipWith (· * ·) a b).sum

/-- `math.sqrt(sum(a * a for a in vec))`. -/
noncomputable def magR (l : List ℝ) : ℝ := Real.sqrt (sumSqR l)

/-- `VectorStoreService.cosine_similarity` (vector_store.py:153-166):
zero for an empty operand, mismatched lengths, or a zero magnitude;
otherwise the normalized dot product. -/
noncomputable def cosine_similarity (vec_a vec_b : List ℝ) : ℝ :=
  if vec_a.isEmpty || vec_b.isEmpty then 0
  else if vec_a.length ≠ vec_b.length then 0
  else if magR vec_a = 0 ∨ magR vec_b = 0 then 0
  else dotR vec_a vec_b / (magR vec_a * magR vec_b)

/-- The dot product is symmetric. -/
theorem dotR_comm (a b : List ℝ) : dotR a b = dotR b a := by
  unfold dotR
  rw [List.zipWith_comm_of_comm _ mul_comm]

/-- The dot product of a vector with itself is its sum of squares. -/
theorem dotR_self : ∀ (a : List ℝ), dotR a a = sumSqR a
  | [] => rfl
  | x :: l => by
    show x * x + dotR l l = x * x + sumSqR l
    rw [dotR_self l]

/-- Claim C2: the store's cosine similarity is symmetric, returns `0.0`
whenever either vector is empty, has zero magnitude, or the two vectors
differ in length, and returns exactly `1.0` for any non-zero vector compared
with itself. -/
theorem claim2_cosine (a b : List ℝ) :
    cosine_similarity a b = cosine_similarity b a ∧
    (a = [] → cosine_similarity a b = 0) ∧
    (b = [] → cosine_similarity a b = 0) ∧
    (a.length ≠ b.length → cosine_similarity a b = 0) ∧
    (magR a = 0 → cosine_similarity a b = 0) ∧
    (magR b = 0 → cosine_similarity a b = 0) ∧
    ((∃ x ∈ a, x ≠ 0) → cosine_similarity a a = 1) := by
  refine ⟨?_, ?_, ?_, ?_, ?_, ?_, ?_⟩
  · unfold cosine_similarity
    by_cases h1 : (a.isEmpty || b.isEmpty) = true
    · rw [if_pos h1, if_pos (by rwa [Bool.or_comm] at h1)]
    · rw [if_neg h1, if_neg (fun hh : (b.isEmpty || a.isEmpty) = true =>
        h1 (by rwa [Bool.or_comm] at hh))]
      by_cases h2 : a.length ≠ b.length
      · rw [if_pos h2, if_pos (Ne.symm h2)]
      · rw [if_neg h2, if_neg (fun hh : b.length ≠ a.length => h2 (Ne.symm hh))]
        by_cases h3 : magR a = 0 ∨ magR b = 0
        · rw [if_pos h3, if_pos h3.symm]
        · rw [if_neg h3, if_neg (fun hh => h3 hh.symm)]
          rw [dotR_comm, mul_comm]
  · intro h
    subst h
    rfl
  · intro h
    subst h
    unfold cosine_similarity
    rw [if_pos (by simp)]
  · intro h
    unfold cosine_similarity
    by_cases h1 : (a.isEmpty || b.isEmpty) = true
    · rw [if_pos h1]
    · rw [if_neg h1, if_pos h]
  · intro h
    unfold cosine_similarity
    by_cases h1 : (a.isEmpty || b.isEmpty) = true
    · rw [if_pos h1]
    · rw [if_neg h1]
      by_cases h2 : a.length ≠ b.length
      · rw [if_pos h2]
      · rw [if_neg h2, if_pos (Or.inl h)]
  · intro h
    unfold cosine_similarity
    by_cases h1 : (a.isEmpty || b.isEmpty) = true
    · rw [if_pos h1]
    · rw [if_neg h1]
      by_cases h2 : a.length ≠ b.length
      · rw [if_pos h2]
      · rw [if_neg h2, if_pos (Or.inr h)]
  · rintro ⟨x, hx, hx0⟩
    have hne : a ≠ [] := by
      rintro rfl
      exact absurd hx (List.not_mem_nil x)
    have hS : 0 < sumSqR a := sumSqR_pos_of_mem a x hx hx0
    have hmag : 0 < magR a := Real.sqrt_pos.mpr hS
    unfold cosine_similarity
    rw [if_neg (by simp [hne]), if_neg (by simp),
      if_neg (by rw [or_self]; exact ne_of_gt hmag), dotR_self]
    unfold magR
    rw [Real.mul_self_sqrt (le_of_lt hS), div_self (ne_of_gt hS)]

/-- Witness for C2: every hypothesis of the conjunction discharged at
concrete vectors. -/
theorem claim2_cosine_witness :
    cosine_similarity [] [(2 : ℝ)] = 0 ∧
    cosine_similarity [(1 : ℝ)] [] = 0 ∧
    cosine_similarity [(1 : ℝ)] [0, 0] = 0 ∧
    cosine_similarity [(0 : ℝ)] [(5 : ℝ)] = 0 ∧
    cosine_similarity [(5 : ℝ)] [(0 : ℝ)] = 0 ∧
    cosine_similarity [(3 : ℝ)] [(3 : ℝ)] = 1 := by
  refine ⟨(claim2_cosine [] [(2 : ℝ)]).2.1 rfl,
         (claim2_cosine [(1 : ℝ)] []).2.2.1 rfl,
         (claim2_cosine [(1 : ℝ)] [0, 0]).2.2.2.1 (by simp),
         (claim2_cosine [(0 : ℝ)] [(5 : ℝ)]).2.2.2.2.1 (by simp [magR, sumSqR]),
         (claim2_cosine [(5 : ℝ)] [(0 : ℝ)]).2.2.2.2.2.1 (by simp [magR, sumSqR]),
         (claim2_cosine [(3 : ℝ)] [(3 : ℝ)]).2.2.2.2.2.2 ⟨3, by simp, by norm_num⟩⟩

/-! ## The document store (`VectorStoreService`, C3, C4, C10)

A stored profile document; the constant `metadata` object of the source is
omitted (it carries no claim-relevant data), the other written fields are
all modelled.  The database is the list of collections in creation order,
each collection a list of documents keyed by `_id` in insertion order
(MongoDB enforces `_id` uniqueness; `wfDB` below states it). -/

/-- One stored profile document. -/
structure Doc where
  text : String
  embedding : List ℝ
  pageContent : String
  timestamp : Nat

/-- The modelled MongoDB database. -/
abbrev DB := List (String × List (String × Doc))

/-- `[^a-zA-Z0-9]` replaced by `_`. -/
def sanitizeChar (c : Char) : Char := if c.isAlphanum then c else '_'

/-- `get_user_collection_name` (vector_store.py:50-56): sanitize the user id
and prepend `user_` unless the sanitized id already starts with it. -/
def get_user_collection_name (user_id : String) : String :=
  let sanitized := String.mk (user_id.data.map sanitizeChar)
  if ("user_".data).isPrefixOf sanitized.data then sanitized
  else "user_" ++ sanitized

/-- `update_one({_id: i}, {$set: doc}, upsert=True)` within one collection:
replace the first document carrying the id, else append a new one.  (The
`$set` document lists every modelled field, so the update is a full
replacement.) -/
def upsertDoc : List (String × Doc) → String → Doc → List (String × Doc)
  | [], i, d => [(i, d)]
  | p :: r, i, d => if p.1 = i then (i, d) :: r else p :: upsertDoc r i d

/-- Upsert into the named collection, creating it on first write (a new
collection appears at the end of the listing order). -/
def upsertColl : DB → String → String → Doc → DB
  | [], cn, i, d => [(cn, [(i, d)])]
  | c :: r, cn, i, d =>
    if c.1 = cn then (cn, upsertDoc c.2 i d) :: r else c :: upsertColl r cn i d

/-- `store_user_profile` (vector_store.py:99-141): write the full profile
document under `_id = "profile_" + user_id` into the user's collection;
`embedding or []` stores the empty list when no embedding is passed. -/
def store_user_profile (db : DB) (user_id profile_text : String)
    (embedding : Option (List ℝ)) (now : Nat) : DB :=
  upsertColl db (get_user_collection_name user_id) ("profile_" ++ user_id)
    { text := profile_text, embedding := embedding.getD [],
      pageContent := profile_text, timestamp := now }

/-- Collection lookup by name (reads do not create collections). -/
def lookupColl : DB → String → Option (List (String × Doc))
  | [], _ => none
  | c :: r, cn => if c.1 = cn then some c.2 else lookupColl r cn

/-- `find_one({_id: i})`: first document carrying the id. -/
def findDoc : List (String × Doc) → String → Option Doc
  | [], _ => none
  | p :: r, i => if p.1 = i then some p.2 else findDoc r i

/-- `get_vector` (vector_store.py:143-151). -/
def get_vector (db : DB) (user_id doc_id : String) : Option Doc :=
  match lookupColl db (get_user_collection_name user_id) with
  | none => none
  | some docs => findDoc docs doc_id

/-- `get_all_user_collections` (vector_store.py:229-236): every collection
name starting with `user_`, in listing order. -/
def get_all_user_collections (db : DB) : List String :=
  (db.map Prod.fst).filter (fun c => ("user_".data).isPrefixOf c.data)

/-- The record returned by `get_user_profile_embedding`. -/
structure ProfileEmb where
  user_id : String
  embedding : List ℝ
  text : String
  timestamp : Nat

/-- `get_user_profile_embedding` (vector_store.py:238-267): absent when the
profile document is missing or its embedding list is empty; the returned
text falls back to `pageContent` when the `text` field is falsy. -/
def get_user_profile_embedding (db : DB) (user_id : String) : Option ProfileEmb :=
  match get_vector db user_id ("profile_" ++ user_id) with
  | none => none
  | some d =>
    match d.embedding with
    | [] => none
    | e => some { user_id := user_id, embedding := e,
                  text := if d.text ≠ "" then d.text else d.pageContent,
                  timestamp := d.timestamp }

/-- Python `str.replace(old, new, 1)` on character lists: replace the
leftmost occurrence only.  (Never called with an empty pattern.) -/
def replaceOnceL (pat rep : List Char) : List Char → List Char
  | [] => []
  | c :: r =>
    if pat.isPrefixOf (c :: r) then rep ++ (c :: r).drop pat.length
    else c :: replaceOnceL pat rep r

/-- Python `str.replace(old, new)`: replace every non-overlapping
occurrence, scanning left to right. -/
def replaceAllL (pat rep : List Char) : Nat → List Char → List Char
  | 0, s => s
  | _ + 1, [] => []
  | fuel + 1, c :: r =>
    if pat.isPrefixOf (c :: r) then
      rep ++ replaceAllL pat rep fuel ((c :: r).drop pat.length)
    else c :: replaceAllL pat rep fuel r

/-- `s.replace(pat, rep, 1)`. -/
def pyReplaceFirst (s pat rep : String) : String :=
  String.mk (replaceOnceL pat.data rep.data s.data)

/-- `s.replace(pat, rep)`. -/
def pyReplaceAll (s pat rep : String) : String :=
  String.mk (replaceAllL pat.data rep.data (s.data.length + 1) s.data)

/-! ## The structured text extractor (`_parse_profile_text`, C9) -/

/-- Matching of the regex tail `\s*([^D]+)`: greedily consume whitespace,
then capture a non-empty run up to the delimiter; when the character after
the whitespace run is the delimiter (or the input ends) the engine
backtracks and the last whitespace character becomes the capture.  Returns
the capture and the input remaining after the match. -/
def tailReAux (d : Char) (w v : List Char) : Option (List Char × List Char) :=
  match v with
  | c :: _ =>
    if c = d then
      if w.isEmpty then none else some (w.drop (w.length - 1), v)
    else
      some (v.takeWhile (fun x => x != d), v.drop (v.takeWhile (fun x => x != d)).length)
  | [] => if w.isEmpty then none else some (w.drop (w.length - 1), v)

/-- The regex tail split into its whitespace run `w` and the remainder `v`
(see the doc comment above for the backtracking semantics). -/
def tailRe (d : Char) (u : List Char) : Option (List Char × List Char) :=
  tailReAux d (u.takeWhile isPySpace) (u.dropWhile isPySpace)

/-- All captures of `re.findall(keyword + r'\s*([^D]+)', s, re.IGNORECASE)`
in order: at each position try the case-insensitive keyword and the tail;
on failure advance one character, after a match resume behind it. -/
def scanRe (kw : List Char) (d : Char) : Nat → List Char → List (List Char)
  | 0, _ => []
  | _ + 1, [] => []
  | fuel + 1, c :: s0 =>
    if lowerList ((c :: s0).take kw.length) = kw then
      match tailRe d ((c :: s0).drop kw.length) with
      | some (cap, rest) => cap :: scanRe kw d fuel rest
      | none => scanRe kw d fuel ((c :: s0).drop 1)
    else scanRe kw d fuel ((c :: s0).drop 1)

/-- The claim's reading of one match: after the keyword, the value is
everything up to the next delimiter; a match needs a non-empty value and
scanning resumes after it. -/
def tailSpec (d : Char) (u : List Char) : Option (List Char × List Char) :=
  if (u.takeWhile (fun x => x != d)).isEmpty then none
  else some (u.takeWhile (fun x => x != d), u.drop (u.takeWhile (fun x => x != d)).length)

/-- The claim's scan, same skeleton as `scanRe` with the claim's matcher. -/
def scanSpec (kw : List Char) (d : Char) : Nat → List Char → List (List Char)
  | 0, _ => []
  | _ + 1, [] => []
  | fuel + 1, c :: s0 =>
    if lowerList ((c :: s0).take kw.length) = kw then
      match tailSpec d ((c :: s0).drop kw.length) with
      | some (cap, rest) => cap :: scanSpec kw d fuel rest
      | none => scanSpec kw d fuel ((c :: s0).drop 1)
    else scanSpec kw d fuel ((c :: s0).drop 1)

/-- The code's appender: keep a stripped capture when it is non-empty and
not already present (`if value and value not in result[...]`). -/
def dedupeNE (l : List String) : List String :=
  l.foldl (fun acc x => if x ≠ "" ∧ x ∉ acc then acc ++ [x] else acc) []

/-- The claim's appender: keep a stripped capture when not already
present. -/
def dedupeAll (l : List String) : List String :=
  l.foldl (fun acc x => if x ∉ acc then acc ++ [x] else acc) []

/-- The four extracted lists. -/
structure ParseResult where
  genres : List String
  artists : List String
  songs : List String
  albums : List String
deriving DecidableEq, Repr

/-- `_parse_profile_text` (vector_store.py:359-403): scan for the four
case-insensitive patterns (`Genre:` up to a period, the others up to a
comma), strip each capture, and de-duplicate keeping non-empty first
occurrences; falsy input returns the empty result. -/
def parse_profile_text (profile_text : String) : ParseResult :=
  if profile_text = "" then ⟨[], [], [], []⟩
  else
    { genres := dedupeNE ((scanRe "genre:".data '.' (profile_text.data.length + 1)
        profile_text.data).map (fun c => String.mk (pyStrip c)))
      artists := dedupeNE ((scanRe "artist:".data ',' (profile_text.data.length + 1)
        profile_text.data).map (fun c => String.mk (pyStrip c)))
      songs := dedupeNE ((scanRe "song:".data ',' (profile_text.data.length + 1)
        profile_text.data).map (fun c => String.mk (pyStrip c)))
      albums := dedupeNE ((scanRe "album:".data ',' (profile_text.data.length + 1)
        profile_text.data).map (fun c => String.mk (pyStrip c))) }

/-- The extractor exactly as the claim words it (captures up to the next
delimiter, trimmed, appended whenever not already present). -/
def parseClaimStated (profile_text : String) : ParseResult :=
  if profile_text = "" then ⟨[], [], [], []⟩
  else
    { genres := dedupeAll ((scanSpec "genre:".data '.' (profile_text.data.length + 1)
        profile_text.data).map (fun c => String.mk (pyStrip c)))
      artists := dedupeAll ((scanSpec "artist:".data ',' (profile_text.data.length + 1)
        profile_text.data).map (fun c => String.mk (pyStrip c)))
      songs := dedupeAll ((scanSpec "song:".data ',' (profile_text.data.length + 1)
        profile_text.data).map (fun c => String.mk (pyStrip c)))
      albums := dedupeAll ((scanSpec "album:".data ',' (profile_text.data.length + 1)
        profile_text.data).map (fun c => String.mk (pyStrip c))) }

/-- The extractor as the amended claim words it: as `parseClaimStated`, but
a trimmed value is appended only when it is also non-empty. -/
def parseClaimAmended (profile_text : String) : ParseResult :=
  if profile_text = "" then ⟨[], [], [], []⟩
  else
    { genres := dedupeNE ((scanSpec "genre:".data '.' (profile_text.data.length + 1)
        profile_text.data).map (fun c => String.mk (pyStrip c)))
      artists := dedupeNE ((scanSpec "artist:".data ',' (profile_text.data.length + 1)
        profile_text.data).map (fun c => String.mk (pyStrip c)))
      songs := dedupeNE ((scanSpec "song:".data ',' (profile_text.data.length + 1)
        profile_text.data).map (fun c => String.mk (pyStrip c)))
      albums := dedupeNE ((scanSpec "album:".data ',' (profile_text.data.length + 1)
        profile_text.data).map (fun c => String.mk (pyStrip c))) }

/-! ## The similar-user scan (`find_similar_users`, C4) -/

/-- One ranked entry of the similar-user scan. -/
structure Entry where
  userId : String
  similarity : ℝ
  similarityPercent : ℝ
  profileText : String
  genres : List String
  artists : List String
  songs : List String
  albums : List String
  timestamp : Nat

/-- `round(x, 2)` idealized over the reals as half-up rounding to two
decimal places (Python's float round-half-even is not representable in an
exact real model; the value is carried through and never branched on). -/
noncomputable def round2 (x : ℝ) : ℝ := ((⌊x * 100 + 1 / 2⌋ : ℤ) : ℝ) / 100

/-- The ranked entry built for one candidate. -/
noncomputable def mkEntry (cur : ProfileEmb) (o : String) (op : ProfileEmb) : Entry :=
  let sim := cosine_similarity cur.embedding op.embedding
  let pd := parse_profile_text op.text
  { userId := o, similarity := sim, similarityPercent := round2 (sim * 100),
    profileText := op.text, genres := pd.genres, artists := pd.artists,
    songs := pd.songs, albums := pd.albums, timestamp := op.timestamp }

/-- Stable descending insert by similarity
(`similarities.sort(key=..., reverse=True)` is the stable descending
sort). -/
noncomputable def insEntry (e : Entry) : List Entry → List Entry
  | [] => [e]
  | f :: l => if f.similarity ≤ e.similarity then e :: f :: l else f :: insEntry e l

/-- Stable descending sort of the ranked entries. -/
noncomputable def sortEntries : List Entry → List Entry
  | [] => []
  | e :: l => insEntry e (sortEntries l)

/-- The candidate loop body of `find_similar_users` (vector_store.py:289-324):
derive the candidate id by stripping the first `user_` occurrence from the
collection name, skip it when it equals the caller's id with every `user_`
occurrence removed or the raw caller id, skip silently when the candidate
has no profile embedding, otherwise append the ranked entry. -/
noncomputable def similarStep (db : DB) (current_user_id : String) (cur : ProfileEmb)
    (acc : List Entry) (collection_name : String) : List Entry :=
  let other_user_id := pyReplaceFirst collection_name "user_" ""
  let current_id_sanitized := pyReplaceAll current_user_id "user_" ""
  if other_user_id = current_id_sanitized ∨ other_user_id = current_user_id then acc
  else
    match get_user_profile_embedding db other_user_id with
    | none => acc
    | some op => acc ++ [mkEntry cur other_user_id op]

/-- `find_similar_users` (vector_store.py:269-357): `none` models the
`{"success": False, "error": ...}` response for a caller without a profile
embedding; otherwise the ranked entries sorted by descending similarity. -/
noncomputable def find_similar_users (db : DB) (current_user_id : String) :
    Option (List Entry) :=
  match get_user_profile_embedding db current_user_id with
  | none => none
  | some cur =>
    some (sortEntries
      ((get_all_user_collections db).foldl (similarStep db current_user_id cur) []))

/-! ## Two-user comparison (`find_common_interests`, C10) -/

/-- The comparison payload (the source also echoes both parse results and
formats the similarity as a percentage string; the similarity is carried
here as the raw real number). -/
structure CommonInterests where
  similarity : ℝ
  genres : List String
  artists : List String
  songs : List String
  albums : List String

/-- `any(x2.lower() == x.lower() for x2 in l2)`. -/
def ciMem (x : String) (l2 : List String) : Bool :=
  l2.any (fun x2 => lowerList x2.data = lowerList x.data)

/-- `find_common_interests` (vector_store.py:405-463): `none` models the
`{"success": False, ...}` response when either user lacks a profile
embedding; otherwise the case-insensitive intersections (ordered by the
first user) and the cosine similarity. -/
noncomputable def find_common_interests (db : DB) (u1 u2 : String) :
    Option CommonInterests :=
  match get_user_profile_embedding db u1, get_user_profile_embedding db u2 with
  | some p1, some p2 =>
    let d1 := parse_profile_text p1.text
    let d2 := parse_profile_text p2.text
    some { similarity := cosine_similarity p1.embedding p2.embedding,
           genres := d1.genres.filter (fun g => ciMem g d2.genres),
           artists := d1.artists.filter (fun a => ciMem a d2.artists),
           songs := d1.songs.filter (fun s => ciMem s d2.songs),
           albums := d1.albums.filter (fun al => ciMem al d2.albums) }
  | _, _ => none

/-! ## The sync pipeline (`SyncController.sync_user_profile`, C8) -/

/-- One entry of the recent-tracks response (`song.get("id")`). -/
structure RecentSong where
  id : Option String

/-- The success payload of a sync. -/
structure SyncOk where
  user_id : String
  profile_text : String
  top_genres : List String
  songs_processed : Nat
  embedding_dim : Nat

/-- `sync_user_profile` (sync_controller.py:20-75), with the external
collaborators passed as parameters: `recentData` is the `data` list of the
recent-played-tracks response, `catalogFn` maps the comma-joined id string
to the catalog response's `data` list, `embedFn` is the configured embedding
provider, `now` the write instant.  An empty `recentData` returns the
`{"success": False, "message": "No recent tracks found"}` response (modelled
as `Except.error`) without touching the store. -/
def sync_user_profile (embedFn : String → List ℝ) (catalogFn : String → List Track)
    (db : DB) (user_id : String) (recentData : List RecentSong) (now : Nat) :
    (Except String SyncOk) × DB :=
  if recentData.isEmpty then (Except.error "No recent tracks found", db)
  else
    let ids := joinSep "," (recentData.filterMap (fun s =>
      match s.id with
      | none => none
      | some i => if i = "" then none else some i))
    let catalog_data := catalogFn ids
    let pt := generateProfileText catalog_data
    let embedding := embedFn pt.1
    let db2 := store_user_profile db user_id pt.1 (some embedding) now
    (Except.ok { user_id := user_id, profile_text := pt.1, top_genres := pt.2,
                 songs_processed := catalog_data.length,
                 embedding_dim := embedding.length }, db2)

/-- Claim C8: if the recent-played-tracks fetch returns an empty result
set, sync fails fast with the reported no-recent-tracks failure (not a
silent no-op) and aborts with no partial state — the returned store equals
the input store, so no profile is written for the user by that call. -/
theorem claim8_no_recent_tracks (embedFn : String → List ℝ)
    (catalogFn : String → List Track) (db : DB) (user_id : String) (now : Nat) :
    sync_user_profile embedFn catalogFn db user_id [] now
      = (Except.error "No recent tracks found", db) := rfl

/-! ## Claim C3: a second write fully replaces the first -/

/-- Looking up the upserted collection yields its docs, upserted. -/
theorem lookupColl_upsertColl_self : ∀ (db : DB) (cn i : String) (d : Doc),
    lookupColl (upsertColl db cn i d) cn
      = some (upsertDoc ((lookupColl db cn).getD []) i d)
  | [], cn, i, d => by simp [upsertColl, lookupColl, upsertDoc]
  | c :: r, cn, i, d => by
    by_cases h : c.1 = cn
    · simp [upsertColl, lookupColl, h]
    · simp [upsertColl, lookupColl, h, lookupColl_upsertColl_self r cn i d]

/-- Finding the upserted id yields the upserted document. -/
theorem findDoc_upsertDoc_self : ∀ (docs : List (String × Doc)) (i : String) (d : Doc),
    findDoc (upsertDoc docs i d) i = some d
  | [], i, d => by simp [upsertDoc, findDoc]
  | p :: r, i, d => by
    by_cases h : p.1 = i
    · simp [upsertDoc, findDoc, h]
    · simp [upsertDoc, findDoc, h, findDoc_upsertDoc_self r i d]

/-- Reading the profile just written observes exactly the written fields. -/
theorem get_vector_store_self (db : DB) (u t : String) (e : Option (List ℝ)) (n : Nat) :
    get_vector (store_user_profile db u t e n) u ("profile_" ++ u)
      = some { text := t, embedding := e.getD [], pageContent := t, timestamp := n } := by
  unfold get_vector store_user_profile
  rw [lookupColl_upsertColl_self]
  show findDoc (upsertDoc _ _ _) _ = _
  rw [findDoc_upsertDoc_self]

/-- Well-formedness of the store: within every collection, at most one
document per `_id` (MongoDB's `_id` uniqueness). -/
def wfDB (db : DB) : Prop := ∀ c ∈ db, (c.2.map Prod.fst).Nodup

/-- Keys after an upsert come from the old keys or are the upserted key. -/
theorem mem_map_fst_upsertDoc : ∀ (docs : List (String × Doc)) (i : String) (d : Doc)
    (x : String), x ∈ (upsertDoc docs i d).map Prod.fst → x ∈ docs.map Prod.fst ∨ x = i
  | [], i, d, x, h => Or.inr (List.mem_singleton.mp h)
  | p :: r, i, d, x, h => by
    by_cases hp : p.1 = i
    · rw [upsertDoc, if_pos hp, List.map_cons] at h
      rcases List.mem_cons.mp h with h | h
      · exact Or.inr h
      · exact Or.inl (by rw [List.map_cons]; exact List.mem_cons_of_mem _ h)
    · rw [upsertDoc, if_neg hp, List.map_cons] at h
      rcases List.mem_cons.mp h with h | h
      · exact Or.inl (by rw [List.map_cons]; exact h ▸ List.mem_cons_self _ _)
      · rcases mem_map_fst_upsertDoc r i d x h with h2 | h2
        · exact Or.inl (by rw [List.map_cons]; exact List.mem_cons_of_mem _ h2)
        · exact Or.inr h2

/-- An upsert preserves key uniqueness within a collection. -/
theorem nodup_upsertDoc : ∀ (docs : List (String × Doc)) (i : String) (d : Doc),
    (docs.map Prod.fst).Nodup → ((upsertDoc docs i d).map Prod.fst).Nodup
  | [], i, _, _ => List.nodup_singleton i
  | p :: r, i, d, h => by
    rw [List.map_cons] at h
    rcases List.nodup_cons.mp h with ⟨hp, hr⟩
    by_cases hpi : p.1 = i
    · rw [upsertDoc, if_pos hpi, List.map_cons]
      exact List.nodup_cons.mpr ⟨hpi ▸ hp, hr⟩
    · rw [upsertDoc, if_neg hpi, List.map_cons]
      refine List.nodup_cons.mpr ⟨?_, nodup_upsertDoc r i d hr⟩
      intro hm
      rcases mem_map_fst_upsertDoc r i d p.1 hm with h2 | h2
      · exact hp h2
      · exact hpi h2

/-- An upsert preserves store well-formedness. -/
theorem wfDB_upsertColl : ∀ (db : DB) (cn i : String) (d : Doc),
    wfDB db → wfDB (upsertColl db cn i d)
  | [], cn, i, d, _ => by
    intro c hc
    simp [upsertColl] at hc
    subst hc
    simp
  | c0 :: r, cn, i, d, h => by
    have h0 := h c0 (List.mem_cons_self c0 r)
    have hr : wfDB r := fun c hc => h c (List.mem_cons_of_mem c0 hc)
    intro c hc
    by_cases he : c0.1 = cn
    · rw [upsertColl, if_pos he] at hc
      rcases List.mem_cons.mp hc with hc | hc
      · subst hc
        exact nodup_upsertDoc c0.2 i d h0
      · exact h c (List.mem_cons_of_mem c0 hc)
    · rw [upsertColl, if_neg he] at hc
      rcases List.mem_cons.mp hc with hc | hc
      · subst hc
        exact h0
      · exact wfDB_upsertColl r cn i d hr c hc

/-- A successful collection lookup is a membership. -/
theorem mem_of_lookupColl : ∀ (db : DB) (cn : String) (docs : List (String × Doc)),
    lookupColl db cn = some docs → (cn, docs) ∈ db
  | [], cn, docs, h => by simp [lookupColl] at h
  | c :: r, cn, docs, h => by
    by_cases he : c.1 = cn
    · rw [lookupColl, if_pos he] at h
      cases h
      exact he ▸ List.mem_cons_self c r
    · rw [lookupColl, if_neg he] at h
      exact List.mem_cons_of_mem c (mem_of_lookupColl r cn docs h)

/-- Claim C3: storing `(t1, e1)` and then `(t2, e2)` for the same user and
reading the profile back returns exactly `(t2, e2)` — the second write fully
replaces the first with no merging of old fields; and writes preserve the
at-most-one-document-per-id invariant, so the user's collection holds at
most one profile document. -/
theorem claim3_upsert_full_replace (db : DB) (u t1 t2 : String) (e1 e2 : List ℝ)
    (n1 n2 : Nat) :
    ((get_vector (store_user_profile (store_user_profile db u t1 (some e1) n1)
          u t2 (some e2) n2) u ("profile_" ++ u)).map
        (fun d => (d.text, d.embedding)) = some (t2, e2)) ∧
    (wfDB db →
      wfDB (store_user_profile (store_user_profile db u t1 (some e1) n1) u t2 (some e2) n2)) ∧
    (wfDB db →
      ∀ docs, lookupColl (store_user_profile (store_user_profile db u t1 (some e1) n1)
          u t2 (some e2) n2) (get_user_collection_name u) = some docs →
        (docs.map Prod.fst).count ("profile_" ++ u) ≤ 1) := by
  refine ⟨?_, ?_, ?_⟩
  · rw [get_vector_store_self]
    rfl
  · intro h
    exact wfDB_upsertColl _ _ _ _ (wfDB_upsertColl _ _ _ _ h)
  · intro h docs hl
    have hwf : wfDB (store_user_profile (store_user_profile db u t1 (some e1) n1)
        u t2 (some e2) n2) := wfDB_upsertColl _ _ _ _ (wfDB_upsertColl _ _ _ _ h)
    have hmem := mem_of_lookupColl _ _ _ hl
    have hnd := hwf _ hmem
    exact List.nodup_iff_count_le_one.mp hnd _

/-- Witness for C3 at a concrete store: the empty store is well-formed, the
two writes observe `(t2, e2) = ("t2", [1])` on read-back, and the profile
document is unique in its collection. -/
theorem claim3_witness :
    ((get_vector (store_user_profile (store_user_profile [] "u" "t1" (some [2]) 0)
          "u" "t2" (some [1]) 1) "u" ("profile_" ++ "u")).map
        (fun d => (d.text, d.embedding)) = some ("t2", [1])) ∧
    wfDB (store_user_profile (store_user_profile [] "u" "t1" (some [2]) 0)
      "u" "t2" (some [1]) 1) :=
  ⟨(claim3_upsert_full_replace [] "u" "t1" "t2" [2] [1] 0 1).1,
   (claim3_upsert_full_replace [] "u" "t1" "t2" [2] [1] 0 1).2.1 (by intro c hc; simp at hc)⟩

/-! ## Claim C9: the extractor agrees with the claim's reading up to the
empty-capture filter -/

/-- `takeWhile` passes over a fully satisfying left part. -/
theorem takeWhile_append_all {p : Char → Bool} : ∀ (w x : List Char),
    (∀ c ∈ w, p c = true) → (w ++ x).takeWhile p = w ++ x.takeWhile p
  | [], x, _ => rfl
  | c :: w, x, h => by
    rw [List.cons_append, List.takeWhile_cons, if_pos (h c (List.mem_cons_self c w)),
      takeWhile_append_all w x (fun c hc => h c (List.mem_cons_of_mem _ hc)), List.cons_append]

/-- `dropWhile` passes over a fully satisfying left part. -/
theorem dropWhile_append_all {p : Char → Bool} : ∀ (w x : List Char),
    (∀ c ∈ w, p c = true) → (w ++ x).dropWhile p = x.dropWhile p
  | [], x, _ => rfl
  | c :: w, x, h => by
    rw [List.cons_append, List.dropWhile_cons, if_pos (h c (List.mem_cons_self c w))]
    exact dropWhile_append_all w x (fun c hc => h c (List.mem_cons_of_mem _ hc))

/-- Stripping ignores an all-whitespace left part. -/
theorem pyStrip_ws_append (w x : List Char) (h : ∀ c ∈ w, isPySpace c = true) :
    pyStrip (w ++ x) = pyStrip x := by
  unfold pyStrip
  rw [dropWhile_append_all w x h]

/-- An all-whitespace list strips to nothing. -/
theorem pyStrip_all_ws (w : List Char) (h : ∀ c ∈ w, isPySpace c = true) :
    pyStrip w = [] := by
  unfold pyStrip
  rw [List.dropWhile_eq_nil_iff.mpr h]
  rfl

/-- Dropping past an appended left part. -/
theorem drop_append_len (w x : List Char) (n : Nat) :
    (w ++ x).drop (w.length + n) = x.drop n := by
  induction w with
  | nil => simp
  | cons a w ih =>
    rw [List.cons_append, List.length_cons,
      show w.length + 1 + n = (w.length + n) + 1 from by omega, List.drop_succ_cons]
    exact ih

/-- The regex matcher (`\s*([^D]+)` with backtracking) and the claim's
matcher (everything up to the delimiter, non-empty) fail together, and on
success produce the same stripped capture and resume at the same rest. -/
theorem tailRe_agree (d : Char) (hd : isPySpace d = false) (u : List Char) :
    (tailRe d u = none ∧ tailSpec d u = none) ∨
    (∃ c1 c2 r, tailRe d u = some (c1, r) ∧ tailSpec d u = some (c2, r) ∧
      pyStrip c1 = pyStrip c2) := by
  have hsplit : u.takeWhile isPySpace ++ u.dropWhile isPySpace = u :=
    List.takeWhile_append_dropWhile isPySpace u
  have hws : ∀ c ∈ u.takeWhile isPySpace, isPySpace c = true :=
    fun c hc => List.mem_takeWhile_imp hc
  have hwd : ∀ c ∈ u.takeWhile isPySpace, (c != d) = true := by
    intro c hc
    have h1 : isPySpace c = true := hws c hc
    rw [bne_iff_ne]
    intro e
    rw [e, hd] at h1
    exact Bool.false_ne_true h1
  have hspec : u.takeWhile (fun x => x != d)
      = u.takeWhile isPySpace ++ (u.dropWhile isPySpace).takeWhile (fun x => x != d) := by
    conv_lhs => rw [← hsplit]
    exact takeWhile_append_all _ _ hwd
  unfold tailRe tailSpec
  cases hv : u.dropWhile isPySpace with
  | nil =>
    rw [hv, List.takeWhile_nil, List.append_nil] at hspec
    have hu : u.takeWhile isPySpace = u := by
      conv_rhs => rw [← hsplit, hv, List.append_nil]
    cases hw : u.takeWhile isPySpace with
    | nil =>
      left
      rw [hspec, hw]
      exact ⟨rfl, rfl⟩
    | cons a w' =>
      have hall : ∀ x ∈ a :: w', isPySpace x = true := fun x hx => hws x (by rw [hw]; exact hx)
      right
      refine ⟨(a :: w').drop ((a :: w').length - 1), a :: w', [], ?_, ?_, ?_⟩
      · rfl
      · rw [hspec, hw]
        have hdr : u.drop (a :: w').length = [] := by
          rw [show u = a :: w' from (hu.symm.trans hw), List.drop_length]
        rw [if_neg (by simp), hdr]
      · rw [pyStrip_all_ws _ (fun x hx => hall x (List.mem_of_mem_drop hx)),
          pyStrip_all_ws _ hall]
  | cons c v' =>
    by_cases hcd : c = d
    · rw [hv] at hspec
      have htv : (c :: v').takeWhile (fun x => x != d) = [] := by
        rw [List.takeWhile_cons, if_neg (by simp [hcd])]
      rw [htv, List.append_nil] at hspec
      cases hw : u.takeWhile isPySpace with
      | nil =>
        left
        rw [hspec, hw]
        exact ⟨by simp only [tailReAux]; rw [if_pos hcd]; rfl, rfl⟩
      | cons a w' =>
        have hall : ∀ x ∈ a :: w', isPySpace x = true := fun x hx => hws x (by rw [hw]; exact hx)
        right
        refine ⟨(a :: w').drop ((a :: w').length - 1), a :: w', c :: v', ?_, ?_, ?_⟩
        · simp only [tailReAux]
          rw [if_pos hcd, if_neg (by simp)]
        · rw [hspec, hw]
          have hdr : u.drop (a :: w').length = c :: v' := by
            conv_lhs => rw [← hsplit, hw, hv]
            exact List.drop_left (a :: w') (c :: v')
          rw [if_neg (by simp), hdr]
        · rw [pyStrip_all_ws _ (fun x hx => hall x (List.mem_of_mem_drop hx)),
            pyStrip_all_ws _ hall]
    · right
      rw [hv] at hspec
      have hcap : (c :: v').takeWhile (fun x => x != d) = c :: v'.takeWhile (fun x => x != d) := by
        rw [List.takeWhile_cons, if_pos (by simp [hcd])]
      refine ⟨(c :: v').takeWhile (fun x => x != d),
        u.takeWhile isPySpace ++ (c :: v').takeWhile (fun x => x != d),
        (c :: v').drop ((c :: v').takeWhile (fun x => x != d)).length, ?_, ?_, ?_⟩
      · simp only [tailReAux]
        rw [if_neg hcd]
      · rw [hspec]
        have hne : ¬ (u.takeWhile isPySpace ++ (c :: v').takeWhile (fun x => x != d)).isEmpty = true := by
          rw [hcap]
          simp
        rw [if_neg hne]
        have hu2 : u = u.takeWhile isPySpace ++ c :: v' := by
          conv_lhs => rw [← hsplit, hv]
        have hdrop : u.drop (u.takeWhile isPySpace ++ (c :: v').takeWhile (fun x => x != d)).length
            = (c :: v').drop ((c :: v').takeWhile (fun x => x != d)).length := by
          rw [List.length_append]
          nth_rewrite 2 [hu2]
          exact drop_append_len _ _ _
        rw [hdrop]
      · exact (pyStrip_ws_append _ _ hws).symm

/-- The regex scan and the claim's scan produce the same stripped captures
in the same order. -/
theorem scan_strip_eq (kw : List Char) (d : Char) (hd : isPySpace d = false) :
    ∀ (fuel : Nat) (s : List Char),
      (scanRe kw d fuel s).map pyStrip = (scanSpec kw d fuel s).map pyStrip
  | 0, _ => rfl
  | _ + 1, [] => rfl
  | fuel + 1, c :: s0 => by
    rw [scanRe, scanSpec]
    by_cases hkw : lowerList ((c :: s0).take kw.length) = kw
    · rw [if_pos hkw, if_pos hkw]
      rcases tailRe_agree d hd ((c :: s0).drop kw.length) with ⟨h1, h2⟩ | ⟨c1, c2, r, h1, h2, h3⟩
      · rw [h1, h2]
        exact scan_strip_eq kw d hd fuel ((c :: s0).drop 1)
      · rw [h1, h2]
        show pyStrip c1 :: (scanRe kw d fuel r).map pyStrip
          = pyStrip c2 :: (scanSpec kw d fuel r).map pyStrip
        rw [h3, scan_strip_eq kw d hd fuel r]
    · rw [if_neg hkw, if_neg hkw]
      exact scan_strip_eq kw d hd fuel ((c :: s0).drop 1)

/-- Claim C9, counterexample: on the input `"Genre: ."` the regex captures
a single space which strips to the empty string; the claim as stated
appends it (it is not already present), the code's truthiness guard skips
it, so the extracted genre lists differ (`[]` versus `[""]`). -/
theorem claim9_counterexample :
    parse_profile_text "Genre: ." ≠ parseClaimStated "Genre: ." := by
  decide

/-- Claim C9 (amended): for every profile text, the structured extractor
returns four de-duplicated lists built by scanning left-to-right with
case-insensitive keyword patterns — genre values captured up to the next
period, artist/song/album values up to the next comma, each trimmed of
surrounding whitespace and appended only if non-empty after trimming and
not already present (first-seen order retained) — and empty input yields
all-empty lists rather than an error. -/
theorem claim9_amended (t : String) :
    parse_profile_text t = parseClaimAmended t ∧
    parse_profile_text "" = ⟨[], [], [], []⟩ := by
  refine ⟨?_, rfl⟩
  unfold parse_profile_text parseClaimAmended
  by_cases ht : t = ""
  · rw [if_pos ht, if_pos ht]
  · rw [if_neg ht, if_neg ht]
    have hmap : ∀ (kw : List Char) (d : Char), isPySpace d = false →
        (scanRe kw d (t.data.length + 1) t.data).map (fun c => String.mk (pyStrip c))
          = (scanSpec kw d (t.data.length + 1) t.data).map (fun c => String.mk (pyStrip c)) := by
      intro kw d hd
      have h := scan_strip_eq kw d hd (t.data.length + 1) t.data
      have h2 : (fun c => String.mk (pyStrip c)) = String.mk ∘ pyStrip := rfl
      rw [h2, List.comp_map, List.comp_map, h]
    rw [hmap "genre:".data '.' (by decide), hmap "artist:".data ',' (by decide),
      hmap "song:".data ',' (by decide), hmap "album:".data ',' (by decide)]

/-! ## Claims C4 and C10: the similar-user scan -/

/-- Members of the stable insert come from the element or the list. -/
theorem mem_insEntry (e x : Entry) : ∀ (l : List Entry), x ∈ insEntry e l → x = e ∨ x ∈ l
  | [], h => Or.inl (List.mem_singleton.mp h)
  | f :: l, h => by
    unfold insEntry at h
    by_cases hk : f.similarity ≤ e.similarity
    · rw [if_pos hk] at h
      exact List.mem_cons.mp h
    · rw [if_neg hk] at h
      rcases List.mem_cons.mp h with h | h
      · exact Or.inr (h ▸ List.mem_cons_self f l)
      · rcases mem_insEntry e x l h with h | h
        · exact Or.inl h
        · exact Or.inr (List.mem_cons_of_mem f h)

/-- Members of the sorted ranking come from the unsorted entries. -/
theorem mem_sortEntries (x : Entry) : ∀ (l : List Entry), x ∈ sortEntries l → x ∈ l
  | e :: l, h => by
    rcases mem_insEntry e x _ h with h | h
    · exact h ▸ List.mem_cons_self e l
    · exact List.mem_cons_of_mem e (mem_sortEntries x l h)

/-- Every entry accumulated by the candidate loop either was already in the
accumulator, or is the ranked entry of a candidate that passed the skip
guard and the profile-embedding lookup. -/
theorem mem_foldl_similarStep (db : DB) (u : String) (cur : ProfileEmb) :
    ∀ (colls : List String) (acc : List Entry) (e : Entry),
      e ∈ colls.foldl (similarStep db u cur) acc →
      e ∈ acc ∨ ∃ cname op,
        e = mkEntry cur (pyReplaceFirst cname "user_" "") op ∧
        get_user_profile_embedding db (pyReplaceFirst cname "user_" "") = some op ∧
        ¬(pyReplaceFirst cname "user_" "" = pyReplaceAll u "user_" "" ∨
          pyReplaceFirst cname "user_" "" = u)
  | [], _, _, h => Or.inl h
  | cname :: colls, acc, e, h => by
    rw [List.foldl_cons] at h
    rcases mem_foldl_similarStep db u cur colls _ e h with h2 | h2
    · simp only [similarStep] at h2
      by_cases hg : (pyReplaceFirst cname "user_" "" = pyReplaceAll u "user_" "" ∨
          pyReplaceFirst cname "user_" "" = u)
      · rw [if_pos hg] at h2
        exact Or.inl h2
      · rw [if_neg hg] at h2
        cases hop : get_user_profile_embedding db (pyReplaceFirst cname "user_" "") with
        | none =>
          rw [hop] at h2
          exact Or.inl h2
        | some op =>
          rw [hop] at h2
          rcases List.mem_append.mp h2 with h3 | h3
          · exact Or.inl h3
          · exact Or.inr ⟨cname, op, List.mem_singleton.mp h3, hop, hg⟩
    · exact Or.inr h2

/-- Claim C4: for every caller userId (with or without a `user_` marker, and
including ids the partition-key sanitization rewrites), the similar-users
scan never includes the caller in its ranked results: each surviving
candidate differs both from the caller's raw id and from the caller's id
with every `user_` occurrence stripped (the normalization the code applies
before comparing). -/
theorem claim4_excludes_caller (db : DB) (u : String) (es : List Entry)
    (h : find_similar_users db u = some es) :
    ∀ e ∈ es, e.userId ≠ u ∧ e.userId ≠ pyReplaceAll u "user_" "" := by
  intro e he
  unfold find_similar_users at h
  cases hcur : get_user_profile_embedding db u with
  | none =>
    rw [hcur] at h
    exact absurd h (by simp)
  | some cur =>
    rw [hcur] at h
    have hes : es = sortEntries ((get_all_user_collections db).foldl (similarStep db u cur) []) :=
      (Option.some_inj.mp h).symm
    have hm : e ∈ (get_all_user_collections db).foldl (similarStep db u cur) [] :=
      mem_sortEntries e _ (hes ▸ he)
    rcases mem_foldl_similarStep db u cur _ [] e hm with h2 | ⟨cname, op, he2, _, hg⟩
    · exact absurd h2 (List.not_mem_nil e)
    · push_neg at hg
      subst he2
      exact ⟨hg.2, hg.1⟩

/-- Concrete two-user store for the C4 witness. -/
noncomputable def c4db : DB :=
  store_user_profile (store_user_profile [] "alice" "ta" (some [1]) 0) "bob" "tb" (some [1]) 1

/-- The ranked entries the scan returns for `"alice"` on `c4db`. -/
noncomputable def c4entries : List Entry :=
  match find_similar_users c4db "alice" with
  | some es => es
  | none => []

/-- The single ranked entry of `c4entries`. -/
noncomputable def c4e : Entry :=
  c4entries.headD ⟨"", 0, 0, "", [], [], [], [], 0⟩

/-- Witness for C4: on the concrete store the scan returns the entry for
`"bob"`, and the theorem yields that it is not the caller. -/
theorem claim4_witness :
    c4e.userId ≠ "alice" ∧ c4e.userId ≠ pyReplaceAll "alice" "user_" "" :=
  claim4_excludes_caller c4db "alice" c4entries rfl c4e
    (by rw [show c4entries = [c4e] from rfl]; exact List.mem_singleton_self c4e)

/-- Claim C10: a profile stored without an embedding persists its text but
an empty embedding list, and is invisible to every similarity operation:
the profile-embedding lookup returns absent, the similar-users scan fails
for it as a caller, no ranked entry of any caller's scan carries its id,
and both orders of the two-user comparison fail. -/
theorem claim10_missing_embedding (db : DB) (u t : String) (now : Nat) :
    ((get_vector (store_user_profile db u t none now) u ("profile_" ++ u)).map Doc.text
      = some t) ∧
    get_user_profile_embedding (store_user_profile db u t none now) u = none ∧
    find_similar_users (store_user_profile db u t none now) u = none ∧
    (∀ v es, find_similar_users (store_user_profile db u t none now) v = some es →
      ∀ e ∈ es, e.userId ≠ u) ∧
    (∀ v, find_common_interests (store_user_profile db u t none now) u v = none ∧
      find_common_interests (store_user_profile db u t none now) v u = none) := by
  have hemb : get_user_profile_embedding (store_user_profile db u t none now) u = none := by
    unfold get_user_profile_embedding
    rw [get_vector_store_self]
    rfl
  refine ⟨?_, hemb, ?_, ?_, ?_⟩
  · rw [get_vector_store_self]
    rfl
  · unfold find_similar_users
    rw [hemb]
  · intro v es h e he hid
    unfold find_similar_users at h
    cases hcur : get_user_profile_embedding (store_user_profile db u t none now) v with
    | none =>
      rw [hcur] at h
      exact absurd h (by simp)
    | some cur =>
      rw [hcur] at h
      have hes : es = sortEntries ((get_all_user_collections (store_user_profile db u t none now)).foldl
          (similarStep (store_user_profile db u t none now) v cur) []) :=
        (Option.some_inj.mp h).symm
      have hm := mem_sortEntries e _ (hes ▸ he)
      rcases mem_foldl_similarStep _ v cur _ [] e hm with h2 | ⟨cname, op, he2, hop, _⟩
      · exact absurd h2 (List.not_mem_nil e)
      · have hid2 : pyReplaceFirst cname "user_" "" = u := by
          rw [← hid, he2]
          rfl
        rw [hid2, hemb] at hop
        exact Option.noConfusion hop
  · intro v
    constructor
    · unfold find_common_interests
      rw [hemb]
    · unfold find_common_interests
      cases hv : get_user_profile_embedding (store_user_profile db u t none now) v with
      | none => rfl
      | some p => rw [hemb]

/-- Concrete two-user store with embeddings for the C10 witness; the
embedding-less profile for `"alice"` is written on top of it inside the
witness statement. -/
noncomputable def c10db : DB :=
  store_user_profile (store_user_profile [] "bob" "tb" (some [1]) 0) "carol" "tc" (some [1]) 1

/-- The ranked entries `"bob"` sees after `"alice"` stored a profile with no
embedding. -/
noncomputable def c10entries : List Entry :=
  match find_similar_users (store_user_profile c10db "alice" "ta" none 2) "bob" with
  | some es => es
  | none => []

/-- The single ranked entry of `c10entries` (the one for `"carol"`). -/
noncomputable def c10e : Entry :=
  c10entries.headD ⟨"", 0, 0, "", [], [], [], [], 0⟩

/-- Witness for C10 on the concrete store: `"bob"`'s scan ranks somebody,
and the theorem yields that it is not the embedding-less `"alice"`; the
two-user comparison with `"alice"` fails in both orders. -/
theorem claim10_witness :
    c10e.userId ≠ "alice" ∧
    find_common_interests (store_user_profile c10db "alice" "ta" none 2) "alice" "bob" = none ∧
    find_common_interests (store_user_profile c10db "alice" "ta" none 2) "bob" "alice" = none :=
  ⟨(claim10_missing_embedding c10db "alice" "ta" 2).2.2.2.1 "bob" c10entries rfl c10e
      (by rw [show c10entries = [c10e] from rfl]; exact List.mem_singleton_self c10e),
   ((claim10_missing_embedding c10db "alice" "ta" 2).2.2.2.2 "bob").1,
   ((claim10_missing_embedding c10db "alice" "ta" 2).2.2.2.2 "bob").2⟩

end AppleMusic
